import Mathlib

/-!
Verification of the search-summarize pipeline in `src/main.py`
(`AISearchEngine`): the text normalizer `clean_and_limit_text`, the DOM
extraction in `scrape_content`, the link collection in `search_bing`, and
the orchestration in `search_and_summarize` / `main`.
-/

namespace AISearch

/-- Whitespace as recognized by Python's `str.split()` and the regex `\s`
(Python 3 treats the same character set as whitespace in both): tab through
carriage return, the information separators 0x1C-0x1F, space, next line 0x85,
no-break space 0xA0, and the Unicode space separators. -/
def pyIsSpace (c : Char) : Bool :=
  let n := c.toNat
  (9 ≤ n && n ≤ 13) || (28 ≤ n && n ≤ 32) || n = 0x85 || n = 0xa0 ||
  n = 0x1680 || (0x2000 ≤ n && n ≤ 0x200a) || n = 0x2028 || n = 0x2029 ||
  n = 0x202f || n = 0x205f || n = 0x3000

/-- A character in the 7-bit ASCII range, i.e. matching `[\x00-\x7F]`. -/
def isAsciiChar (c : Char) : Bool := c.toNat ≤ 127

/-- Helper for `splitWords`: `acc` holds the reversed current word. -/
def splitWordsAux : List Char → List Char → List (List Char)
  | [], acc => if acc = [] then [] else [acc.reverse]
  | c :: cs, acc =>
    if pyIsSpace c then
      if acc = [] then splitWordsAux cs [] else acc.reverse :: splitWordsAux cs []
    else splitWordsAux cs (c :: acc)

/-- Python `text.split()`: split on runs of whitespace, discarding empty
pieces. -/
def splitWords (s : List Char) : List (List Char) := splitWordsAux s []

/-- Python `' '.join(words)`. -/
def joinSpace : List (List Char) → List Char
  | [] => []
  | [w] => w
  | w :: ws => w ++ ' ' :: joinSpace ws

/-- Helper for `subNonAscii`: the flag records whether the previous character
was outside the ASCII range (so the current run is already replaced). -/
def subNonAsciiAux : List Char → Bool → List Char
  | [], _ => []
  | c :: cs, inRun =>
    if isAsciiChar c then c :: subNonAsciiAux cs false
    else if inRun then subNonAsciiAux cs true
    else ' ' :: subNonAsciiAux cs true

/-- Python `re.sub(r'[^\x00-\x7F]+', ' ', s)`: every maximal run of
characters outside the 7-bit ASCII range becomes a single space. -/
def subNonAscii (s : List Char) : List Char := subNonAsciiAux s false

/-- Helper for `collapseWs`: the flag records whether the previous character
was whitespace (so the current run is already replaced). -/
def collapseWsAux : List Char → Bool → List Char
  | [], _ => []
  | c :: cs, inRun =>
    if pyIsSpace c then
      if inRun then collapseWsAux cs true else ' ' :: collapseWsAux cs true
    else c :: collapseWsAux cs false

/-- Python `re.sub(r'\s+', ' ', s)`: every maximal run of whitespace becomes
a single space. -/
def collapseWs (s : List Char) : List Char := collapseWsAux s false

/-- Python `s.strip()`: remove leading and trailing whitespace. -/
def pyStrip (s : List Char) : List Char :=
  ((s.dropWhile pyIsSpace).reverse.dropWhile pyIsSpace).reverse

/-- Embedding of `AISearchEngine.clean_and_limit_text` (src/main.py lines 29-41):
`words = text.split()`, `limited_text = ' '.join(words[:max_words])`, then
`re.sub(r'[^\x00-\x7F]+', ' ', ...)` and `re.sub(r'\s+', ' ', ...).strip()`. -/
def clean_and_limit_text (text : List Char) (max_words : Nat) : List Char :=
  let words := splitWords text
  let limited_text := joinSpace (words.take max_words)
  pyStrip (collapseWs (subNonAscii limited_text))

/-- Number of whitespace-separated tokens of a string, `len(s.split())`. -/
def wordCount (s : List Char) : Nat := (splitWords s).length

/-- A well-formed word list: every word is non-empty and free of
whitespace. `splitWords` always produces such a list. -/
def goodWords (ws : List (List Char)) : Prop :=
  ∀ w ∈ ws, w ≠ [] ∧ ∀ c ∈ w, pyIsSpace c = false

/-- The normalizer lifted to `String` (`clean_and_limit_text` operates on
Python strings; the pipeline below passes `String`s around). -/
def cleanStr (s : String) (max_words : Nat) : String :=
  String.mk (clean_and_limit_text s.data max_words)

/-! ## The parsed HTML document (`BeautifulSoup` tree) -/

mutual
/-- A parsed HTML node: an element with a tag name and children, or a text
node. -/
inductive Node where
  | text : String → Node
  | elem : String → Forest → Node
/-- A sequence of sibling nodes; a whole document (soup) is a `Forest`. -/
inductive Forest where
  | nil : Forest
  | cons : Node → Forest → Forest
end

/-- The element kinds removed by `scrape_content`:
`soup(['script', 'style', 'nav', 'header', 'footer', 'aside'])` followed by
`element.decompose()`. -/
def bannedTags : List String := ["script", "style", "nav", "header", "footer", "aside"]

/-- Decompose every element whose tag is in `bannedTags`, dropping its whole
subtree. -/
def stripBanned : Forest → Forest
  | .nil => .nil
  | .cons (.text s) ns => .cons (.text s) (stripBanned ns)
  | .cons (.elem tag ch) ns =>
    if tag ∈ bannedTags then stripBanned ns
    else .cons (.elem tag (stripBanned ch)) (stripBanned ns)

/-- Whether some element with tag `t` occurs anywhere in the forest. -/
def containsTag (t : String) : Forest → Bool
  | .nil => false
  | .cons (.text _) ns => containsTag t ns
  | .cons (.elem tag ch) ns => tag == t || containsTag t ch || containsTag t ns

/-- Python `soup.find(t)`: the first element with tag `t` in document (pre-)order. -/
def findTag (t : String) : Forest → Option Node
  | .nil => none
  | .cons (.text _) ns => findTag t ns
  | .cons (.elem tag ch) ns =>
    if tag == t then some (.elem tag ch)
    else
      match findTag t ch with
      | some m => some m
      | none => findTag t ns

/-- Python `get_text()` on a forest: concatenation of all text nodes in order. -/
def getTextF : Forest → String
  | .nil => ""
  | .cons (.text s) ns => s ++ getTextF ns
  | .cons (.elem _ ch) ns => getTextF ch ++ getTextF ns

/-- Python `get_text()` on a single node. -/
def getTextN (n : Node) : String := getTextF (.cons n .nil)

/-- The pure part of `scrape_content` (src/main.py lines 50-63) applied to a
successfully parsed page: remove the unwanted elements, pick
`soup.find('main') or soup.find('article') or soup.find('body')` as the
content root (falling back to the whole soup when all three are absent),
take its text and clean it with the fixed 1500-word cap. -/
def extractText (doc : Forest) : String :=
  let cleaned := stripBanned doc
  let contentText :=
    match findTag "main" cleaned with
    | some m => getTextN m
    | none =>
      match findTag "article" cleaned with
      | some a => getTextN a
      | none =>
        match findTag "body" cleaned with
        | some b => getTextN b
        | none => getTextF cleaned
  cleanStr contentText 1500

/-! ## The pipeline (`search_bing`, `scrape_content`, `summarize_content`,
`search_and_summarize`, and the session handling in `main`) -/

/-- Observable side effects of a run that the claims talk about: a Groq
chat-completion request (with its full prompt), an `st.error` diagnostic,
and the `driver.quit()` performed by `cleanup`. -/
inductive Event where
  | llmCall : String → Event
  | stError : String → Event
  | quitDriver : Event
deriving DecidableEq

/-- The trace of events of one run, in order. -/
abbrev Trace := List Event

/-- The external world one run interacts with: `searchAnchors` is the
outcome of loading the Bing results page and waiting for `#b_results`
(`Except.error` = `WebDriverWait` timeout or navigation failure, otherwise
the `href` attribute of each `#b_results h2 a` anchor, `none` when the
attribute is absent); `pages` is the outcome of loading and parsing a URL
(`Except.error` = any navigation/timeout/parsing exception); `llm` is the
outcome of one chat-completion request for a given prompt. -/
structure Env where
  searchAnchors : Except String (List (Option String))
  pages : String → Except String Forest
  llm : String → Except String String

/-- The list comprehension in `search_bing` (src/main.py line 27):
`[link.get_attribute('href') for link in links if link.get_attribute('href')]`
— keep an anchor's href exactly when it is truthy (present and non-empty). -/
def hrefList (anchors : List (Option String)) : List String :=
  anchors.filterMap fun h =>
    match h with
    | some s => if s = "" then none else some s
    | none => none

/-- Embedding of `AISearchEngine.search_bing` (src/main.py lines 20-27): navigate to the
results page, wait for `#b_results` (a timeout propagates as an exception),
then return the truthy hrefs of the result-heading anchors. -/
def search_bing (env : Env) (_query : String) : Except String (List String) :=
  match env.searchAnchors with
  | .error e => .error e
  | .ok anchors => .ok (hrefList anchors)

/-- Embedding of `AISearchEngine.scrape_content` (src/main.py lines 43-67): on a parsed
page, extract and clean the content text; on any exception, show an
`st.error` diagnostic and return the empty string. Never raises. -/
def scrape_content (env : Env) (url : String) : String × Trace :=
  match env.pages url with
  | .error e => ("", [.stError ("Error scraping " ++ url ++ ": " ++ e)])
  | .ok doc => (extractText doc, [])

/-- The fixed instruction template of `summarize_content`
(src/main.py lines 73-75). -/
def promptHeader : String :=
  "Summarize the following text in 1-2 concise sentences, focusing on the core message:\n\n"

/-- Embedding of `AISearchEngine.summarize_content` (src/main.py lines 69-93): issue one
chat-completion request with the templated prompt; return the response
verbatim, or show an `st.error` diagnostic and return the empty string on
any exception. Never raises. -/
def summarize_content (env : Env) (content : String) : String × Trace :=
  let prompt := promptHeader ++ content
  match env.llm prompt with
  | .ok s => (s, [.llmCall prompt])
  | .error e => ("", [.llmCall prompt, .stError ("Error summarizing content: " ++ e)])

/-- The `results` dict of `search_and_summarize`: the parallel lists
`results['summaries']` and `results['citations']`. -/
structure ResultSet where
  summaries : List String
  citations : List String
deriving DecidableEq

deriving instance DecidableEq for Except

/-- The per-URL loop of `search_and_summarize` (src/main.py lines 110-127):
scrape each URL; if the content is truthy, summarize it; if the summary is
truthy, append the summary and the URL to the result lists. -/
def processUrls (env : Env) : List String → ResultSet × Trace
  | [] => (⟨[], []⟩, [])
  | url :: rest =>
    let content := (scrape_content env url).1
    let t1 := (scrape_content env url).2
    if content ≠ "" then
      let summary := (summarize_content env content).1
      let t2 := (summarize_content env content).2
      let rt := processUrls env rest
      if summary ≠ "" then
        (⟨summary :: rt.1.summaries, url :: rt.1.citations⟩, t1 ++ t2 ++ rt.2)
      else (rt.1, t1 ++ t2 ++ rt.2)
    else
      ((processUrls env rest).1, t1 ++ (processUrls env rest).2)

/-- Embedding of `AISearchEngine.search_and_summarize` (src/main.py lines 95-134):
`urls = self.search_bing(query)[:max_results]`, then the per-URL loop. An
exception from `search_bing` propagates to the caller. -/
def search_and_summarize (env : Env) (query : String) (max_results : Nat) :
    Except String ResultSet × Trace :=
  match search_bing env query with
  | .error e => (.error e, [])
  | .ok allUrls =>
    let urls := allUrls.take max_results
    (.ok (processUrls env urls).1, (processUrls env urls).2)

/-- What the caller-facing `main` shows after the pipeline body ran. -/
inductive MainOutcome where
  | displayed : ResultSet → MainOutcome
  | warnedNoResults : MainOutcome
  | errorShown : String → MainOutcome
deriving DecidableEq

/-- The inner `try/except/finally` of `main` (src/main.py lines 174-196)
after a successful engine construction: run `search_and_summarize`; display
its results (or the no-results warning); on an exception, show an
`st.error` diagnostic instead; in both cases `finally` runs
`search_engine.cleanup()`, i.e. `driver.quit()`, exactly at the end. -/
def mainSession (env : Env) (query : String) (max_results : Nat) :
    MainOutcome × Trace :=
  let body := search_and_summarize env query max_results
  match body.1 with
  | .ok rs =>
    ((if rs.summaries = [] then .warnedNoResults else .displayed rs),
      body.2 ++ [.quitDriver])
  | .error e =>
    (.errorShown ("An error occurred during search: " ++ e),
      body.2 ++ [.stError ("An error occurred during search: " ++ e), .quitDriver])

/-- Number of `driver.quit()` calls in a trace. -/
def quitCount : Trace → Nat
  | [] => 0
  | .quitDriver :: t => quitCount t + 1
  | _ :: t => quitCount t

/-- Whether a trace contains an `st.error` diagnostic. -/
def hasDiag : Trace → Bool
  | [] => false
  | .stError _ :: _ => true
  | _ :: t => hasDiag t

/-- The prompts of the chat-completion requests in a trace, in order. -/
def llmPrompts : Trace → List String
  | [] => []
  | .llmCall p :: t => p :: llmPrompts t
  | _ :: t => llmPrompts t

/-- Whether the per-URL loop keeps `url`: its scraped content is truthy and
the summary of that content is truthy. -/
def goodUrl (env : Env) (url : String) : Bool :=
  (scrape_content env url).1 ≠ "" &&
  (summarize_content env (scrape_content env url).1).1 ≠ ""

/-- The summary the loop records for a kept URL. -/
def urlSummary (env : Env) (url : String) : String :=
  (summarize_content env (scrape_content env url).1).1

/-! ## Concrete environments used as test inputs -/

/-- An environment in which the `#b_results` container never appears: the
`WebDriverWait` in `search_bing` times out. -/
def envTimeout : Env where
  searchAnchors := .error "TimeoutException"
  pages := fun _ => .ok .nil
  llm := fun _ => .ok ""

def urlA : String := "https://a.example"
def urlB : String := "https://b.example"
def urlC : String := "https://c.example"

/-- The three-URL scenario: pages `a` and `c` carry text `Ta` / `Tc`, page
`b` is empty, and the model answers `S_a` / `S_c` on the corresponding
prompts. -/
def envC6 : Env where
  searchAnchors := .ok [some urlA, some urlB, some urlC]
  pages := fun u =>
    if u = urlA then .ok (.cons (.elem "body" (.cons (.text "Ta") .nil)) .nil)
    else if u = urlB then .ok (.cons (.elem "body" .nil) .nil)
    else if u = urlC then .ok (.cons (.elem "body" (.cons (.text "Tc") .nil)) .nil)
    else .error "404"
  llm := fun p =>
    if p = promptHeader ++ "Ta" then .ok "S_a"
    else if p = promptHeader ++ "Tc" then .ok "S_c"
    else .error "unexpected prompt"

/-- An environment whose only page fails to load. -/
def envScrapeFail : Env where
  searchAnchors := .ok [some urlA]
  pages := fun _ => .error "net::ERR_CONNECTION_REFUSED"
  llm := fun _ => .ok "irrelevant"

/-- A one-element document with a `main` region, used as a concrete page. -/
def docMainW : Forest := .cons (.elem "main" (.cons (.text "hi") .nil)) .nil

/-! ## Lemmas about the text normalizer -/

theorem splitWordsAux_good (s : List Char) :
    ∀ acc : List Char, (∀ c ∈ acc, pyIsSpace c = false) →
      ∀ w ∈ splitWordsAux s acc,
        w ≠ [] ∧ ∀ c ∈ w, pyIsSpace c = false ∧ (c ∈ s ∨ c ∈ acc) := by
  induction s with
  | nil =>
    intro acc hacc w hw
    simp only [splitWordsAux] at hw
    by_cases h : acc = []
    · simp [h] at hw
    · rw [if_neg h] at hw
      rcases List.mem_singleton.mp hw with rfl
      refine ⟨by simpa using h, fun c hc => ?_⟩
      rw [List.mem_reverse] at hc
      exact ⟨hacc c hc, Or.inr hc⟩
  | cons a s ih =>
    intro acc hacc w hw
    simp only [splitWordsAux] at hw
    by_cases hsp : pyIsSpace a = true
    · rw [if_pos hsp] at hw
      by_cases h : acc = []
      · rw [if_pos h] at hw
        obtain ⟨hne, hall⟩ := ih [] (by simp) w hw
        refine ⟨hne, fun c hc => ⟨(hall c hc).1, ?_⟩⟩
        rcases (hall c hc).2 with h1 | h1
        · exact Or.inl (List.mem_cons_of_mem _ h1)
        · simp at h1
      · rw [if_neg h] at hw
        rcases List.mem_cons.mp hw with rfl | hw
        · refine ⟨by simpa using h, fun c hc => ?_⟩
          rw [List.mem_reverse] at hc
          exact ⟨hacc c hc, Or.inr hc⟩
        · obtain ⟨hne, hall⟩ := ih [] (by simp) w hw
          refine ⟨hne, fun c hc => ⟨(hall c hc).1, ?_⟩⟩
          rcases (hall c hc).2 with h1 | h1
          · exact Or.inl (List.mem_cons_of_mem _ h1)
          · simp at h1
    · rw [if_neg hsp] at hw
      have hacc' : ∀ c ∈ (a :: acc), pyIsSpace c = false := by
        intro c hc
        rcases List.mem_cons.mp hc with rfl | hc
        · simpa using hsp
        · exact hacc c hc
      obtain ⟨hne, hall⟩ := ih (a :: acc) hacc' w hw
      refine ⟨hne, fun c hc => ⟨(hall c hc).1, ?_⟩⟩
      rcases (hall c hc).2 with h1 | h1
      · exact Or.inl (List.mem_cons_of_mem _ h1)
      · rcases List.mem_cons.mp h1 with rfl | h1
        · exact Or.inl (List.mem_cons_self _ _)
        · exact Or.inr h1

theorem splitWords_good (s : List Char) :
    ∀ w ∈ splitWords s, w ≠ [] ∧ ∀ c ∈ w, pyIsSpace c = false ∧ c ∈ s := by
  intro w hw
  obtain ⟨hne, hall⟩ := splitWordsAux_good s [] (by simp) w hw
  refine ⟨hne, fun c hc => ⟨(hall c hc).1, ?_⟩⟩
  rcases (hall c hc).2 with h1 | h1
  · exact h1
  · simp at h1

theorem goodWords_splitWords (s : List Char) : goodWords (splitWords s) :=
  fun w hw => ⟨(splitWords_good s w hw).1, fun c hc => ((splitWords_good s w hw).2 c hc).1⟩

theorem goodWords_take (ws : List (List Char)) (m : Nat) (h : goodWords ws) :
    goodWords (ws.take m) :=
  fun w hw => h w ((ws.take_sublist m).subset hw)

theorem joinSpace_cons (w : List Char) (ws : List (List Char)) (h : ws ≠ []) :
    joinSpace (w :: ws) = w ++ ' ' :: joinSpace ws := by
  cases ws with
  | nil => exact absurd rfl h
  | cons v vs => rfl

theorem mem_joinSpace (ws : List (List Char)) :
    ∀ c ∈ joinSpace ws, c = ' ' ∨ ∃ w ∈ ws, c ∈ w := by
  induction ws using joinSpace.induct with
  | case1 => intro c hc; simp [joinSpace] at hc
  | case2 w => intro c hc; exact Or.inr ⟨w, List.mem_singleton_self w, hc⟩
  | case3 w ws hne ih =>
    intro c hc
    rw [joinSpace_cons w ws (fun h => hne h)] at hc
    rcases List.mem_append.mp hc with hc | hc
    · exact Or.inr ⟨w, List.mem_cons_self _ _, hc⟩
    · rcases List.mem_cons.mp hc with rfl | hc
      · exact Or.inl rfl
      · rcases ih c hc with h | ⟨u, hu, hcu⟩
        · exact Or.inl h
        · exact Or.inr ⟨u, List.mem_cons_of_mem _ hu, hcu⟩

theorem subNonAsciiAux_ascii (s : List Char) :
    ∀ b, ∀ c ∈ subNonAsciiAux s b, isAsciiChar c = true := by
  induction s with
  | nil => intro b c hc; simp [subNonAsciiAux] at hc
  | cons a s ih =>
    intro b c hc
    simp only [subNonAsciiAux] at hc
    by_cases ha : isAsciiChar a = true
    · rw [if_pos ha] at hc
      rcases List.mem_cons.mp hc with rfl | hc
      · exact ha
      · exact ih false c hc
    · rw [if_neg ha] at hc
      by_cases hb : b = true
      · rw [if_pos hb] at hc
        exact ih true c hc
      · rw [if_neg hb] at hc
        rcases List.mem_cons.mp hc with rfl | hc
        · decide
        · exact ih true c hc

theorem subNonAsciiAux_id (s : List Char) (h : ∀ c ∈ s, isAsciiChar c = true) :
    ∀ b, subNonAsciiAux s b = s := by
  induction s with
  | nil => intro b; rfl
  | cons a s ih =>
    intro b
    have ha : isAsciiChar a = true := h a (List.mem_cons_self a s)
    simp only [subNonAsciiAux, if_pos ha]
    rw [ih (fun c hc => h c (List.mem_cons_of_mem a hc)) false]

theorem mem_collapseWsAux (s : List Char) :
    ∀ b, ∀ c ∈ collapseWsAux s b, c = ' ' ∨ c ∈ s := by
  induction s with
  | nil => intro b c hc; simp [collapseWsAux] at hc
  | cons a s ih =>
    intro b c hc
    simp only [collapseWsAux] at hc
    by_cases ha : pyIsSpace a = true
    · rw [if_pos ha] at hc
      by_cases hb : b = true
      · rw [if_pos hb] at hc
        rcases ih true c hc with h | h
        · exact Or.inl h
        · exact Or.inr (List.mem_cons_of_mem a h)
      · rw [if_neg hb] at hc
        rcases List.mem_cons.mp hc with rfl | hc
        · exact Or.inl rfl
        · rcases ih true c hc with h | h
          · exact Or.inl h
          · exact Or.inr (List.mem_cons_of_mem a h)
    · rw [if_neg ha] at hc
      rcases List.mem_cons.mp hc with rfl | hc
      · exact Or.inr (List.mem_cons_self _ _)
      · rcases ih false c hc with h | h
        · exact Or.inl h
        · exact Or.inr (List.mem_cons_of_mem _ h)

theorem mem_pyStrip (s : List Char) : ∀ c ∈ pyStrip s, c ∈ s := by
  intro c hc
  unfold pyStrip at hc
  rw [List.mem_reverse] at hc
  have h1 := (List.dropWhile_sublist (l := (s.dropWhile pyIsSpace).reverse) pyIsSpace).subset hc
  rw [List.mem_reverse] at h1
  exact (List.dropWhile_sublist (l := s) pyIsSpace).subset h1

theorem collapseWsAux_cons_nonspace (a : Char) (ha : pyIsSpace a = false)
    (cs : List Char) (b : Bool) :
    collapseWsAux (a :: cs) b = a :: collapseWsAux cs false := by
  show (if pyIsSpace a = true then
      if b = true then collapseWsAux cs true else ' ' :: collapseWsAux cs true
    else a :: collapseWsAux cs false) = a :: collapseWsAux cs false
  rw [if_neg (by simp [ha])]

theorem collapseWsAux_word (a : Char) (w : List Char)
    (hns : ∀ c ∈ a :: w, pyIsSpace c = false) :
    ∀ b rest, collapseWsAux ((a :: w) ++ rest) b = (a :: w) ++ collapseWsAux rest false := by
  induction w generalizing a with
  | nil =>
    intro b rest
    exact collapseWsAux_cons_nonspace a (hns a (List.mem_cons_self _ _)) rest b
  | cons v w ih =>
    intro b rest
    have ha : pyIsSpace a = false := hns a (List.mem_cons_self _ _)
    show collapseWsAux (a :: ((v :: w) ++ rest)) b = a :: ((v :: w) ++ collapseWsAux rest false)
    rw [collapseWsAux_cons_nonspace a ha _ b,
      ih v (fun c hc => hns c (List.mem_cons_of_mem _ hc)) false rest]

theorem collapseWsAux_joinSpace (ws : List (List Char)) (h : goodWords ws) :
    ∀ b, collapseWsAux (joinSpace ws) b = joinSpace ws := by
  induction ws using joinSpace.induct with
  | case1 => intro b; rfl
  | case2 w =>
    intro b
    have hw := h w (List.mem_singleton_self w)
    obtain ⟨a, w', rfl⟩ : ∃ a w', w = a :: w' := by
      cases w with
      | nil => exact absurd rfl hw.1
      | cons a w' => exact ⟨a, w', rfl⟩
    have := collapseWsAux_word a w' hw.2 b []
    simpa [joinSpace, collapseWsAux] using this
  | case3 w ws hne ih =>
    intro b
    rw [joinSpace_cons w ws (fun hh => hne hh)]
    have hw := h w (List.mem_cons_self _ _)
    obtain ⟨a, w', rfl⟩ : ∃ a w', w = a :: w' := by
      cases w with
      | nil => exact absurd rfl hw.1
      | cons a w' => exact ⟨a, w', rfl⟩
    rw [collapseWsAux_word a w' hw.2 b (' ' :: joinSpace ws)]
    have h' : goodWords ws := fun u hu => h u (List.mem_cons_of_mem _ hu)
    have hstep : collapseWsAux (' ' :: joinSpace ws) false = ' ' :: joinSpace ws := by
      simp only [collapseWsAux]
      rw [if_pos (by decide : pyIsSpace ' ' = true), if_neg (by simp), ih h' true]
    rw [hstep]

theorem dropWhile_joinSpace (ws : List (List Char)) (h : goodWords ws) :
    (joinSpace ws).dropWhile pyIsSpace = joinSpace ws := by
  cases ws with
  | nil => rfl
  | cons w vs =>
    have hw := h w (List.mem_cons_self _ _)
    obtain ⟨a, w', rfl⟩ : ∃ a w', w = a :: w' := by
      cases w with
      | nil => exact absurd rfl hw.1
      | cons a w' => exact ⟨a, w', rfl⟩
    have ha : pyIsSpace a = false := hw.2 a (List.mem_cons_self _ _)
    cases vs with
    | nil => simp [joinSpace, List.dropWhile_cons, ha]
    | cons v vs' =>
      rw [joinSpace_cons _ (v :: vs') (by simp)]
      simp [List.dropWhile_cons, ha]

theorem joinSpace_append_single (A : List (List Char)) (b : List Char) (h : A ≠ []) :
    joinSpace (A ++ [b]) = joinSpace A ++ ' ' :: b := by
  induction A with
  | nil => exact absurd rfl h
  | cons w A ih =>
    cases A with
    | nil => rfl
    | cons v vs =>
      rw [List.cons_append, joinSpace_cons w ((v :: vs) ++ [b]) (by simp),
        joinSpace_cons w (v :: vs) (by simp), ih (by simp)]
      simp

theorem joinSpace_reverse (ws : List (List Char)) :
    (joinSpace ws).reverse = joinSpace ((ws.map List.reverse).reverse) := by
  induction ws using joinSpace.induct with
  | case1 => rfl
  | case2 w => rfl
  | case3 w ws hne ih =>
    have hne' : ws ≠ [] := fun hh => hne hh
    rw [joinSpace_cons w ws hne']
    have h1 : ((w :: ws).map List.reverse).reverse
        = (ws.map List.reverse).reverse ++ [w.reverse] := by simp
    rw [h1, joinSpace_append_single _ _ (by simpa using hne'), ← ih]
    simp

theorem goodWords_rev_map (ws : List (List Char)) (h : goodWords ws) :
    goodWords ((ws.map List.reverse).reverse) := by
  intro w hw
  rw [List.mem_reverse, List.mem_map] at hw
  obtain ⟨u, hu, rfl⟩ := hw
  obtain ⟨hne, hns⟩ := h u hu
  refine ⟨by simpa using hne, fun c hc => hns c (List.mem_reverse.mp hc)⟩

theorem pyStrip_joinSpace (ws : List (List Char)) (h : goodWords ws) :
    pyStrip (joinSpace ws) = joinSpace ws := by
  unfold pyStrip
  rw [dropWhile_joinSpace ws h, joinSpace_reverse ws,
    dropWhile_joinSpace _ (goodWords_rev_map ws h), ← joinSpace_reverse ws,
    List.reverse_reverse]

theorem clean_eq_joinSpace (text : List Char) (m : Nat)
    (h : ∀ c ∈ text, isAsciiChar c = true) :
    clean_and_limit_text text m = joinSpace ((splitWords text).take m) := by
  unfold clean_and_limit_text
  set ws := (splitWords text).take m with hws
  have hgood : goodWords ws := goodWords_take _ m (goodWords_splitWords text)
  have hascii : ∀ c ∈ joinSpace ws, isAsciiChar c = true := by
    intro c hc
    rcases mem_joinSpace ws c hc with rfl | ⟨w, hw, hcw⟩
    · decide
    · have hmem : w ∈ splitWords text := (List.take_sublist m _).subset hw
      exact h c ((splitWords_good text w hmem).2 c hcw).2
  show pyStrip (collapseWs (subNonAscii (joinSpace ws))) = joinSpace ws
  unfold subNonAscii collapseWs
  rw [subNonAsciiAux_id _ hascii false, collapseWsAux_joinSpace ws hgood false,
    pyStrip_joinSpace ws hgood]

theorem splitWordsAux_word (w : List Char) (hns : ∀ c ∈ w, pyIsSpace c = false) :
    ∀ s acc, splitWordsAux (w ++ s) acc = splitWordsAux s (w.reverse ++ acc) := by
  induction w with
  | nil => intro s acc; rfl
  | cons a w ih =>
    intro s acc
    have ha : pyIsSpace a = false := hns a (List.mem_cons_self _ _)
    show splitWordsAux (a :: (w ++ s)) acc = splitWordsAux s ((a :: w).reverse ++ acc)
    simp only [splitWordsAux]
    rw [if_neg (by simp [ha])]
    rw [ih (fun c hc => hns c (List.mem_cons_of_mem _ hc)) s (a :: acc)]
    simp

theorem splitWords_joinSpace (ws : List (List Char)) (h : goodWords ws) :
    splitWords (joinSpace ws) = ws := by
  induction ws using joinSpace.induct with
  | case1 => rfl
  | case2 w =>
    obtain ⟨hne, hns⟩ := h w (List.mem_singleton_self w)
    show splitWordsAux (joinSpace [w]) [] = [w]
    have hjw : joinSpace [w] = w ++ [] := by simp [joinSpace]
    rw [hjw, splitWordsAux_word w hns [] []]
    simp only [splitWordsAux, List.append_nil]
    rw [if_neg (by simpa using hne)]
    simp
  | case3 w ws hne0 ih =>
    have hne' : ws ≠ [] := fun hh => hne0 hh
    obtain ⟨hne, hns⟩ := h w (List.mem_cons_self _ _)
    have h' : goodWords ws := fun u hu => h u (List.mem_cons_of_mem _ hu)
    show splitWordsAux (joinSpace (w :: ws)) [] = w :: ws
    rw [joinSpace_cons w ws hne', splitWordsAux_word w hns _ []]
    show splitWordsAux (' ' :: joinSpace ws) (w.reverse ++ []) = w :: ws
    simp only [splitWordsAux]
    rw [if_pos (by decide : pyIsSpace ' ' = true)]
    rw [if_neg (by simpa using hne)]
    rw [show splitWordsAux (joinSpace ws) [] = splitWords (joinSpace ws) from rfl, ih h']
    simp

theorem clean_ascii (text : List Char) (m : Nat) :
    ∀ c ∈ clean_and_limit_text text m, isAsciiChar c = true := by
  intro c hc
  unfold clean_and_limit_text at hc
  have h1 := mem_pyStrip _ c hc
  rcases mem_collapseWsAux _ false c h1 with rfl | h2
  · decide
  · exact subNonAsciiAux_ascii _ false c h2

theorem clean_wordCount (text : List Char) (m : Nat)
    (h : ∀ c ∈ text, isAsciiChar c = true) :
    wordCount (clean_and_limit_text text m) ≤ m := by
  rw [wordCount, clean_eq_joinSpace text m h,
    splitWords_joinSpace _ (goodWords_take _ m (goodWords_splitWords text))]
  rw [List.length_take]
  exact Nat.min_le_left m _

/-! ## Lemmas about the pipeline -/

theorem quitCount_append (a b : Trace) :
    quitCount (a ++ b) = quitCount a + quitCount b := by
  induction a with
  | nil => simp [quitCount]
  | cons e t ih =>
    cases e with
    | llmCall p => simp [quitCount, ih]
    | stError m => simp [quitCount, ih]
    | quitDriver =>
      show quitCount (t ++ b) + 1 = quitCount t + 1 + quitCount b
      rw [ih]
      omega

theorem quitCount_scrape (env : Env) (url : String) :
    quitCount (scrape_content env url).2 = 0 := by
  unfold scrape_content
  cases env.pages url <;> rfl

theorem quitCount_summarize (env : Env) (content : String) :
    quitCount (summarize_content env content).2 = 0 := by
  simp only [summarize_content]
  cases h : env.llm (promptHeader ++ content) <;> simp [h, quitCount]

theorem quitCount_processUrls (env : Env) (urls : List String) :
    quitCount (processUrls env urls).2 = 0 := by
  induction urls with
  | nil => rfl
  | cons url rest ih =>
    simp only [processUrls]
    split
    · split <;>
        simp [quitCount_append, quitCount_scrape, quitCount_summarize, ih]
    · simp [quitCount_append, quitCount_scrape, ih]

theorem quitCount_sas (env : Env) (query : String) (n : Nat) :
    quitCount (search_and_summarize env query n).2 = 0 := by
  unfold search_and_summarize
  cases h : search_bing env query with
  | error e => rfl
  | ok allUrls => simpa using quitCount_processUrls env (allUrls.take n)

theorem processUrls_citations (env : Env) (urls : List String) :
    (processUrls env urls).1.citations = urls.filter (goodUrl env) := by
  induction urls with
  | nil => rfl
  | cons url rest ih =>
    simp only [processUrls, goodUrl, List.filter_cons]
    by_cases h1 : (scrape_content env url).1 = ""
    · rw [if_neg (by simpa using h1)]
      rw [if_neg (by simp [h1])]
      exact ih
    · rw [if_pos (by simpa using h1)]
      by_cases h2 : (summarize_content env (scrape_content env url).1).1 = ""
      · rw [if_neg (by simpa using h2)]
        rw [if_neg (by simp [h1, h2])]
        exact ih
      · rw [if_pos (by simpa using h2)]
        rw [if_pos (by simp [h1, h2])]
        simpa using ih

theorem processUrls_summaries (env : Env) (urls : List String) :
    (processUrls env urls).1.summaries
      = (urls.filter (goodUrl env)).map (urlSummary env) := by
  induction urls with
  | nil => rfl
  | cons url rest ih =>
    simp only [processUrls, goodUrl, List.filter_cons]
    by_cases h1 : (scrape_content env url).1 = ""
    · rw [if_neg (by simpa using h1)]
      rw [if_neg (by simp [h1])]
      exact ih
    · rw [if_pos (by simpa using h1)]
      by_cases h2 : (summarize_content env (scrape_content env url).1).1 = ""
      · rw [if_neg (by simpa using h2)]
        rw [if_neg (by simp [h1, h2])]
        exact ih
      · rw [if_pos (by simpa using h2)]
        rw [if_pos (by simp [h1, h2])]
        simp only [List.map_cons]
        rw [ih]
        rfl

theorem sas_ok (env : Env) (query : String) (n : Nat)
    (anchors : List (Option String)) (h : env.searchAnchors = .ok anchors) :
    search_and_summarize env query n
      = (.ok (processUrls env ((hrefList anchors).take n)).1,
         (processUrls env ((hrefList anchors).take n)).2) := by
  unfold search_and_summarize search_bing
  rw [h]

theorem sas_error (env : Env) (query : String) (n : Nat)
    (e : String) (h : env.searchAnchors = .error e) :
    search_and_summarize env query n = (.error e, []) := by
  unfold search_and_summarize search_bing
  rw [h]

/-! ## Lemmas about the DOM extraction -/

theorem stripBanned_no_banned (f : Forest) :
    ∀ t ∈ bannedTags, containsTag t (stripBanned f) = false := by
  induction f using stripBanned.induct with
  | case1 => intro t _; rfl
  | case2 s ns ih =>
    intro t ht
    simp only [stripBanned, containsTag]
    exact ih t ht
  | case3 tag ch ns hmem ih =>
    intro t ht
    simp only [stripBanned, if_pos hmem]
    exact ih t ht
  | case4 tag ch ns hmem ihc ihn =>
    intro t ht
    simp only [stripBanned, if_neg hmem, containsTag]
    have hne : (tag == t) = false := by
      simp only [beq_eq_false_iff_ne]
      intro hh
      exact hmem (hh ▸ ht)
    rw [hne, ihc t ht, ihn t ht]
    rfl

/-! ## The claims -/

/-- C1: For every input string `text` and every `max_words`, the result of
`clean_and_limit_text` has word count at most `max_words` and contains no
byte outside the 7-bit ASCII range. As stated this is FALSE (see the
counterexample): replacing a non-ASCII run inside a word with a space can
split one kept word into two, so the word-count bound can be exceeded.
Amended: the output never contains a character outside the 7-bit ASCII
range, and whenever the input is entirely 7-bit ASCII the word count of the
output is at most `max_words`. -/
theorem c1_normalizer_bounds (text : List Char) (max_words : Nat) :
    (∀ c ∈ clean_and_limit_text text max_words, isAsciiChar c = true) ∧
    ((∀ c ∈ text, isAsciiChar c = true) →
      wordCount (clean_and_limit_text text max_words) ≤ max_words) :=
  ⟨clean_ascii text max_words, clean_wordCount text max_words⟩

/-- C1 witness: the amended theorem evaluated on the ASCII input `"a b"`
with `max_words = 1`. -/
theorem c1_normalizer_bounds_witness :
    (∀ c ∈ clean_and_limit_text ['a', ' ', 'b'] 1, isAsciiChar c = true) ∧
    wordCount (clean_and_limit_text ['a', ' ', 'b'] 1) ≤ 1 :=
  ⟨(c1_normalizer_bounds ['a', ' ', 'b'] 1).1,
   (c1_normalizer_bounds ['a', ' ', 'b'] 1).2 (by decide)⟩

/-- C1 counterexample: on input `"aéb"` with `max_words = 1` the code keeps
the single word `"aéb"`, then replaces `é` by a space, producing `"a b"`,
whose word count is `2 > 1`. -/
theorem c1_normalizer_bounds_cex :
    ¬ wordCount (clean_and_limit_text ['a', 'é', 'b'] 1) ≤ 1 := by decide

/-- C4: `clean_and_limit_text` is idempotent. As stated this is FALSE (see
the counterexample): `clean_and_limit_text "aéb" 1 = "a b"`, and cleaning
again gives `"a"`. Amended: idempotence holds for every input whose
characters are all in the 7-bit ASCII range. -/
theorem c4_normalizer_idempotent (t : List Char) (m : Nat)
    (h : ∀ c ∈ t, isAsciiChar c = true) :
    clean_and_limit_text (clean_and_limit_text t m) m = clean_and_limit_text t m := by
  have hascii0 : ∀ c ∈ clean_and_limit_text t m, isAsciiChar c = true := clean_ascii t m
  rw [clean_eq_joinSpace t m h] at hascii0
  rw [clean_eq_joinSpace t m h]
  rw [clean_eq_joinSpace _ m hascii0,
    splitWords_joinSpace _ (goodWords_take _ m (goodWords_splitWords t)),
    List.take_take, Nat.min_self]

/-- C4 witness: idempotence evaluated on the ASCII input `"a b"` with
`m = 1`. -/
theorem c4_normalizer_idempotent_witness :
    clean_and_limit_text (clean_and_limit_text ['a', ' ', 'b'] 1) 1
      = clean_and_limit_text ['a', ' ', 'b'] 1 :=
  c4_normalizer_idempotent ['a', ' ', 'b'] 1 (by decide)

/-- C4 counterexample: `normalize(normalize("aéb", 1), 1) = "a"` but
`normalize("aéb", 1) = "a b"`. -/
theorem c4_normalizer_idempotent_cex :
    clean_and_limit_text (clean_and_limit_text ['a', 'é', 'b'] 1) 1
      ≠ clean_and_limit_text ['a', 'é', 'b'] 1 := by decide

/-- C2: for every environment (so for every combination of collection,
extraction and summarization outcomes, including exceptions at any point),
one run of the pipeline with session handling (`main`'s inner
`try/except/finally` around `search_and_summarize`) performs exactly one
`driver.quit()`. -/
theorem c2_session_released_once (env : Env) (query : String) (n : Nat) :
    quitCount (mainSession env query n).2 = 1 := by
  simp only [mainSession]
  cases h : (search_and_summarize env query n).1 with
  | error e => simp [h, quitCount_append, quitCount_sas, quitCount]
  | ok rs => simp [h, quitCount_append, quitCount_sas, quitCount]

/-- C3: the claim says that when the results container does not appear
within the bounded wait, `search_and_summarize` returns an empty ResultSet
plus a diagnostic and never propagates a thrown fault. This is FALSE (see
the counterexample): the `WebDriverWait` timeout propagates out of
`search_and_summarize` uncaught. Amended: `search_and_summarize`
propagates the exception to its caller `main`, which catches it, shows a
diagnostic, displays no ResultSet, and still releases the browser session
exactly once. -/
theorem c3_search_unavailable (env : Env) (query : String) (n : Nat)
    (e : String) (h : env.searchAnchors = .error e) :
    (search_and_summarize env query n).1 = .error e ∧
    (mainSession env query n).1
      = .errorShown ("An error occurred during search: " ++ e) ∧
    hasDiag (mainSession env query n).2 = true ∧
    quitCount (mainSession env query n).2 = 1 := by
  have hs := sas_error env query n e h
  refine ⟨by rw [hs], ?_, ?_, ?_⟩
  · simp [mainSession, hs]
  · simp [mainSession, hs, hasDiag]
  · simp [mainSession, hs, quitCount_append, quitCount]

/-- C3 witness: the amended theorem evaluated in `envTimeout`. -/
theorem c3_search_unavailable_witness :
    (search_and_summarize envTimeout "q" 5).1 = .error "TimeoutException" ∧
    (mainSession envTimeout "q" 5).1
      = .errorShown ("An error occurred during search: " ++ "TimeoutException") ∧
    hasDiag (mainSession envTimeout "q" 5).2 = true ∧
    quitCount (mainSession envTimeout "q" 5).2 = 1 :=
  c3_search_unavailable envTimeout "q" 5 "TimeoutException" rfl

/-- C3 counterexample: in an environment where the wait for `#b_results`
times out, `search_and_summarize` yields a propagated error, not an empty
ResultSet. -/
theorem c3_search_unavailable_cex :
    (search_and_summarize envTimeout "q" 5).1 = Except.error "TimeoutException" ∧
    (search_and_summarize envTimeout "q" 5).1
      ≠ Except.ok (⟨[], []⟩ : ResultSet) := by decide

/-- C5: whenever a run returns a ResultSet, its citations are exactly the
collected links (in collection order) that survived extraction and
summarization — a sublist of the collected links, of length at most the
number of collected links; summaries are paired 1:1 with citations (equal
lengths), each summary being the one produced from the content extracted
at exactly that citation URL; failed links are dropped, not null-filled. -/
theorem c5_resultset_invariants (env : Env) (query : String) (n : Nat)
    (anchors : List (Option String)) (rs : ResultSet)
    (h1 : env.searchAnchors = .ok anchors)
    (h2 : (search_and_summarize env query n).1 = .ok rs) :
    rs.citations = ((hrefList anchors).take n).filter (goodUrl env) ∧
    rs.summaries = rs.citations.map (urlSummary env) ∧
    rs.summaries.length = rs.citations.length ∧
    rs.citations.Sublist (hrefList anchors) ∧
    rs.citations.length ≤ (hrefList anchors).length := by
  rw [sas_ok env query n anchors h1] at h2
  simp only [Except.ok.injEq] at h2
  subst h2
  have hsub : (processUrls env ((hrefList anchors).take n)).1.citations.Sublist
      (hrefList anchors) := by
    rw [processUrls_citations]
    exact (List.filter_sublist _).trans (List.take_sublist n _)
  refine ⟨processUrls_citations env _, ?_, ?_, hsub, hsub.length_le⟩
  · rw [processUrls_summaries, processUrls_citations]
  · rw [processUrls_summaries, processUrls_citations, List.length_map]

/-- C5 witness: the invariants evaluated in the concrete three-URL
environment. -/
theorem c5_resultset_invariants_witness :
    (⟨["S_a", "S_c"], [urlA, urlC]⟩ : ResultSet).citations
      = ((hrefList [some urlA, some urlB, some urlC]).take 5).filter (goodUrl envC6) ∧
    (⟨["S_a", "S_c"], [urlA, urlC]⟩ : ResultSet).summaries
      = [urlA, urlC].map (urlSummary envC6) ∧
    ([("S_a" : String), "S_c"].length = [urlA, urlC].length) ∧
    ([urlA, urlC].Sublist (hrefList [some urlA, some urlB, some urlC])) ∧
    [urlA, urlC].length ≤ (hrefList [some urlA, some urlB, some urlC]).length :=
  c5_resultset_invariants envC6 "rust ownership" 5
    [some urlA, some urlB, some urlC] ⟨["S_a", "S_c"], [urlA, urlC]⟩ rfl (by decide)

/-- C6: in the concrete scenario — collector returns `[a, b, c]`,
extraction yields `"Ta"` for `a`, empty for `b`, `"Tc"` for `c`, the model
answers `"S_a"` / `"S_c"` — the run returns exactly
`[("S_a", a), ("S_c", c)]` in order, of length 2, with `b` absent, and the
summarizer is invoked exactly twice, never for `b`. -/
theorem c6_scenario :
    (search_and_summarize envC6 "rust ownership" 5).1
      = .ok ⟨["S_a", "S_c"], [urlA, urlC]⟩ ∧
    llmPrompts (search_and_summarize envC6 "rust ownership" 5).2
      = [promptHeader ++ "Ta", promptHeader ++ "Tc"] ∧
    (scrape_content envC6 urlB).1 = "" := by decide

/-- C7: if loading or parsing a page raises, `scrape_content` returns the
empty string (with a diagnostic), propagates nothing, and such failures
never abort the pipeline: the run still returns a ResultSet whenever link
collection succeeded. -/
theorem c7_extraction_never_raises (env : Env) (url : String) (e : String)
    (h : env.pages url = .error e) :
    (scrape_content env url).1 = "" ∧
    hasDiag (scrape_content env url).2 = true ∧
    (∀ query n anchors, env.searchAnchors = .ok anchors →
      ∃ rs, (search_and_summarize env query n).1 = .ok rs) := by
  refine ⟨?_, ?_, ?_⟩
  · simp [scrape_content, h]
  · simp [scrape_content, h, hasDiag]
  · intro query n anchors ha
    exact ⟨_, by rw [sas_ok env query n anchors ha]⟩

/-- C7 witness: evaluated in an environment whose only page fails to
load. -/
theorem c7_extraction_never_raises_witness :
    (scrape_content envScrapeFail urlA).1 = "" ∧
    hasDiag (scrape_content envScrapeFail urlA).2 = true ∧
    (∃ rs, (search_and_summarize envScrapeFail "q" 3).1 = .ok rs) := by
  obtain ⟨ha, hb, hc⟩ :=
    c7_extraction_never_raises envScrapeFail urlA "net::ERR_CONNECTION_REFUSED" rfl
  exact ⟨ha, hb, hc "q" 3 [some urlA] rfl⟩

/-- C8: for every `n ≥ 1`, a returned ResultSet holds at most `n`
(summary, citation) pairs. -/
theorem c8_resultset_bounded (env : Env) (query : String) (n : Nat)
    (rs : ResultSet) (_hn : 1 ≤ n)
    (h : (search_and_summarize env query n).1 = .ok rs) :
    rs.summaries.length ≤ n ∧ rs.citations.length ≤ n := by
  cases ha : env.searchAnchors with
  | error e =>
    rw [sas_error env query n e ha] at h
    simp at h
  | ok anchors =>
    rw [sas_ok env query n anchors ha] at h
    simp only [Except.ok.injEq] at h
    subst h
    have hc : (processUrls env ((hrefList anchors).take n)).1.citations.length ≤ n := by
      rw [processUrls_citations]
      refine le_trans (List.filter_sublist _).length_le ?_
      rw [List.length_take]
      exact Nat.min_le_left n _
    constructor
    · rw [processUrls_summaries, List.length_map, ← processUrls_citations]
      exact hc
    · exact hc

/-- C8 witness: the bound evaluated in the three-URL environment with
`n = 5`. -/
theorem c8_resultset_bounded_witness :
    (⟨["S_a", "S_c"], [urlA, urlC]⟩ : ResultSet).summaries.length ≤ 5 ∧
    (⟨["S_a", "S_c"], [urlA, urlC]⟩ : ResultSet).citations.length ≤ 5 :=
  c8_resultset_bounded envC6 "rust ownership" 5 ⟨["S_a", "S_c"], [urlA, urlC]⟩
    (by decide) (by decide)

/-- C9: extraction removes every `script`, `style`, `nav`, `header`,
`footer` and `aside` element from the parsed document, then uses as
content root the first present of a `main` region, an `article` region,
and the full `body`, returning the normalized text of that root. -/
theorem c9_extraction_structure (doc : Forest) :
    (∀ t ∈ bannedTags, containsTag t (stripBanned doc) = false) ∧
    (∀ m, findTag "main" (stripBanned doc) = some m →
      extractText doc = cleanStr (getTextN m) 1500) ∧
    (∀ a, findTag "main" (stripBanned doc) = none →
      findTag "article" (stripBanned doc) = some a →
      extractText doc = cleanStr (getTextN a) 1500) ∧
    (∀ b, findTag "main" (stripBanned doc) = none →
      findTag "article" (stripBanned doc) = none →
      findTag "body" (stripBanned doc) = some b →
      extractText doc = cleanStr (getTextN b) 1500) := by
  refine ⟨stripBanned_no_banned doc, ?_, ?_, ?_⟩
  · intro m hm
    simp [extractText, hm]
  · intro a h1 h2
    simp [extractText, h1, h2]
  · intro b h1 h2 h3
    simp [extractText, h1, h2, h3]

/-- C9 witness: the removal property and the `main`-root selection
evaluated on a concrete one-element document. -/
theorem c9_extraction_structure_witness :
    containsTag "script" (stripBanned docMainW) = false ∧
    extractText docMainW
      = cleanStr (getTextN (.elem "main" (.cons (.text "hi") .nil))) 1500 :=
  ⟨(c9_extraction_structure docMainW).1 "script" (by decide),
   (c9_extraction_structure docMainW).2.1 (.elem "main" (.cons (.text "hi") .nil)) rfl⟩

/-- C10: every URL returned by `search_bing` comes from an anchor whose
`href` attribute is present and non-empty; missing or empty hrefs are
filtered out. -/
theorem c10_hrefs_truthy (anchors : List (Option String)) (u : String)
    (h : u ∈ hrefList anchors) : u ≠ "" ∧ some u ∈ anchors := by
  unfold hrefList at h
  rw [List.mem_filterMap] at h
  obtain ⟨a, ha, hfa⟩ := h
  cases a with
  | none => simp at hfa
  | some s =>
    have hfa' : (if s = "" then none else some s) = some u := hfa
    by_cases hs : s = ""
    · rw [if_pos hs] at hfa'
      simp at hfa'
    · rw [if_neg hs, Option.some.injEq] at hfa'
      subst hfa'
      exact ⟨hs, ha⟩

/-- C10 witness: evaluated on a one-anchor list. -/
theorem c10_hrefs_truthy_witness :
    urlA ≠ "" ∧ some urlA ∈ [some urlA, none, some ""] :=
  c10_hrefs_truthy [some urlA, none, some ""] urlA (by decide)

end AISearch
